import Mathlib

/-!
Verification of the claims about the orangeterry client-side media lifecycle
and navigation layer.  The definitions below are a shallow embedding of the
JavaScript source (src/scripts/embeds.js, src/scripts/events.js,
src/scripts/stream-controls.js, first document of each file, which is the
variant the claims cite).  DOM elements are modelled by records of the
attributes and class flags the embedded functions read and write; `setTimeout`
callbacks are modelled as having completed (quiescent state), matching the
spec's note that timers are best-effort and may be replaced by immediate
execution.
-/

namespace OrangeTerry

/-! ## Media Embed Manager: iframe model (embeds.js) -/

/-- Model of an iframe element: the `src` property, the `data-original-src`
attribute (`none` when absent, i.e. `getAttribute` returns `null`), and the
attributes that `reloadSectionMedia` copies when replacing the node. -/
structure Iframe where
  src : String
  dataOriginalSrc : Option String
  width : String
  height : String
  frameBorder : String
  allow : String
  title : String
  idAttr : String
deriving DecidableEq, Repr

/-- JS falsiness of `iframe.getAttribute('data-original-src')`: the attribute
is falsy when it is absent (`null`) or the empty string. -/
def attrFalsy : Option String → Bool
  | none => true
  | some s => s == ""

/-- `createIframeEmbed` (embeds.js lines 187-214): the container is cleared
and a single fresh iframe is appended with `src = embedUrl` and
`data-original-src = embedUrl`.  `w`, `h`, `t` are `options.width || '100%'`,
`options.height || '100%'`, `options.title || ''` as resolved by the source. -/
def createIframeEmbed (embedUrl w h t : String) : Iframe :=
  { src := embedUrl
    dataOriginalSrc := some embedUrl
    width := w
    height := h
    frameBorder := "0"
    allow := ""
    title := t
    idAttr := "" }

/-- Body of the per-iframe unload loop, which appears verbatim both in
`unloadArchiveItemEmbed` (embeds.js lines 603-612) and in the audio-archives
branch of `unloadSectionMedia` (lines 1415-1424): if the current src is truthy
and neither `about:blank` nor the page location `loc`, capture it into
`data-original-src` (only when that attribute is currently falsy) and blank
the src. -/
def captureAndBlankIframe (loc : String) (f : Iframe) : Iframe :=
  if f.src ≠ "" ∧ f.src ≠ "about:blank" ∧ f.src ≠ loc then
    { f with
      dataOriginalSrc :=
        if attrFalsy f.dataOriginalSrc then some f.src else f.dataOriginalSrc
      src := "about:blank" }
  else f

/-- Body of the per-iframe loop in the audio-archives branch of
`reloadSectionMedia` (embeds.js lines 1541-1592).  When a truthy
`data-original-src` is stored and the current src is empty, `about:blank` or
the page location, the iframe is replaced by a fresh node carrying the same
attributes (with the source's `||` fallbacks for width and height) whose src
is assigned to the stored original after a short delay (modelled as
completed); when the src merely differs from the stored original it is
reassigned in place; otherwise nothing changes. -/
def reloadAudioArchiveIframe (loc : String) (f : Iframe) : Iframe :=
  match f.dataOriginalSrc with
  | some originalSrc =>
    if originalSrc ≠ "" then
      if f.src = "" ∨ f.src = "about:blank" ∨ f.src = loc then
        { src := originalSrc
          dataOriginalSrc := some originalSrc
          width := if f.width = "" then "100%" else f.width
          height := if f.height = "" then "120" else f.height
          frameBorder := if f.frameBorder = "" then "0" else f.frameBorder
          allow := f.allow
          title := f.title
          idAttr := f.idAttr }
      else if f.src ≠ originalSrc then { f with src := originalSrc }
      else f
    else f
  | none => f

/-! ## Media Embed Manager: per-item unload (embeds.js `unloadArchiveItemEmbed`) -/

/-- Model of one rendered audio archive item: the `data-embed-loaded` dataset
flag, the id attribute of its `.archive-embed` div (`""` when absent), the
iframes inside that div, and the placeholder class. -/
structure ArchiveItemDom where
  embedLoaded : Bool
  embedDivId : String
  iframes : List Iframe
  placeholderClass : Bool
deriving DecidableEq, Repr

def mixcloudIframePrefix : String := "mixcloud-iframe-"

/-- `unloadArchiveItemEmbed` (embeds.js lines 560-630) acting on the item and
on the global `mixcloudWidgets` map (modelled as its list of keys; `pause()`
is an external side effect on the opaque widget).  When the embed is not
loaded the function returns immediately.  Otherwise it deletes the widget
keyed by the embed div's id and the one keyed by the first iframe's
`mixcloud-iframe-` suffix, blanks every iframe's src (capturing
`data-original-src` first), and resets the embed div to a placeholder:
`innerHTML = ''` discards the (just blanked) iframes, the id attribute is
removed, `data-embed-loaded` becomes `'false'` and the placeholder class is
restored. -/
def unloadArchiveItemEmbed (_loc : String) (widgets : List String)
    (it : ArchiveItemDom) : List String × ArchiveItemDom :=
  if it.embedLoaded = false then (widgets, it)
  else
    let widgets1 :=
      if it.embedDivId ≠ "" then widgets.erase it.embedDivId else widgets
    let widgets2 :=
      if it.embedDivId ≠ "" then
        match it.iframes.head? with
        | some f =>
          if f.idAttr ≠ "" ∧ mixcloudIframePrefix.isPrefixOf f.idAttr then
            widgets1.erase (f.idAttr.drop mixcloudIframePrefix.length)
          else widgets1
        | none => widgets1
      else widgets1
    (widgets2,
      { embedLoaded := false
        embedDivId := ""
        iframes := []
        placeholderClass := true })

/-! ## Stream Tab Controller (stream-controls.js, embeds.js `unloadStream`) -/

/-- JS `String.prototype.includes`: substring containment on char lists. -/
def containsSeq (p l : List Char) : Bool :=
  l.tails.any fun t => p.isPrefixOf t

/-- `s.includes(pat)` for Lean strings. -/
def strIncludes (s pat : String) : Bool :=
  containsSeq pat.toList s.toList

/-- DOM elements read and written by `switchStream`: each tab / player / chat
element is `none` when absent from the document, otherwise carries its
`active` class flag; `kickIframe` is the iframe inside `#kick-embed`;
`twitchContainer` is `#twitch-embed` together with its child iframe;
`twitchEmbedRef` models whether the module-level `twitchEmbed` reference in
embeds.js is non-null. -/
structure StreamDom where
  kickTab : Option Bool
  twitchTab : Option Bool
  kickPlayer : Option Bool
  twitchPlayer : Option Bool
  twitchChat : Option Bool
  kickIframe : Option Iframe
  twitchContainer : Option (Option Iframe)
  twitchEmbedRef : Bool
deriving DecidableEq, Repr

/-- Module state of stream-controls.js: the `activeStream` variable plus the
DOM it manipulates. -/
structure StreamSt where
  activeStream : String
  dom : StreamDom
deriving DecidableEq, Repr

/-- Calls into external collaborators recorded by the model: `unloadStream`
invocations and `initTwitchEmbed` invocations (the Twitch SDK is an opaque
black box, so the embed it would construct is recorded as an effect). -/
inductive StreamEffect
  | unloadStreamCall (target : String)
  | initTwitchEmbedCall (channel : String)
deriving DecidableEq, Repr

/-- `unloadStream` (embeds.js lines 1667-1685): for `'twitch'`, pause the
embed (external), clear `#twitch-embed` and null the module reference; for
`'kick'`, if the kick iframe exists and its src is truthy, store it in
`data-original-src` (unconditionally here) and blank the src. -/
def unloadStreamModel (d : StreamDom) (stream : String) : StreamDom :=
  if stream = "twitch" then
    match d.twitchContainer with
    | some _ => { d with twitchContainer := some none, twitchEmbedRef := false }
    | none => d
  else if stream = "kick" then
    match d.kickIframe with
    | some f =>
      if f.src ≠ "" then
        { d with kickIframe := some { f with dataOriginalSrc := some f.src, src := "" } }
      else d
    | none => d
  else d

/-- `switchStream` (stream-controls.js lines 114-195).  Returns the new state
and the list of external calls made.  Invalid targets and the already-active
target return immediately; missing tab or player elements abort before any
mutation.  Otherwise the active stream is unloaded, tab / player / chat
`active` classes are flipped, the incoming stream's embed is restored (kick:
reassign the captured or default src; twitch: reinitialise via the SDK when
no live iframe exists), and `activeStream` is assigned. -/
def switchStream (st : StreamSt) (stream : String) : StreamSt × List StreamEffect :=
  if stream ≠ "kick" ∧ stream ≠ "twitch" then (st, [])
  else if st.activeStream = stream then (st, [])
  else if st.dom.kickTab.isNone ∨ st.dom.twitchTab.isNone ∨
      st.dom.kickPlayer.isNone ∨ st.dom.twitchPlayer.isNone then (st, [])
  else
    let unloaded : StreamDom × List StreamEffect :=
      if st.activeStream ≠ "" then
        (unloadStreamModel st.dom st.activeStream,
          [StreamEffect.unloadStreamCall st.activeStream])
      else (st.dom, [])
    let d1 := unloaded.1
    if stream = "kick" then
      let d2 := { d1 with
        kickTab := some true
        twitchTab := some false
        kickPlayer := some true
        twitchPlayer := some false
        twitchChat := d1.twitchChat.map fun _ => true }
      let reload : StreamDom × List StreamEffect :=
        match d2.kickIframe with
        | some f =>
          if attrFalsy f.dataOriginalSrc = false ∧ f.src = "" then
            ({ d2 with kickIframe := some { f with src := f.dataOriginalSrc.getD "" } }, [])
          else if f.src = "" ∨ strIncludes f.src "kick.com" = false then
            ({ d2 with
                kickIframe := some { f with src := "https://player.kick.com/flukie" } }, [])
          else (d2, [])
        | none => (d2, [])
      ({ activeStream := stream, dom := reload.1 }, unloaded.2 ++ reload.2)
    else
      let d2 := { d1 with
        twitchTab := some true
        kickTab := some false
        twitchPlayer := some true
        kickPlayer := some false
        twitchChat := d1.twitchChat.map fun _ => true }
      let reload : StreamDom × List StreamEffect :=
        match d2.twitchContainer with
        | some (some f) =>
          if f.src = "" then (d2, [StreamEffect.initTwitchEmbedCall "flukie"])
          else (d2, [])
        | some none => (d2, [StreamEffect.initTwitchEmbedCall "flukie"])
        | none => (d2, [])
      ({ activeStream := stream, dom := reload.1 }, unloaded.2 ++ reload.2)

/-! ## VK language parameter normalization (embeds.js `addVkLanguageParam`) -/

/-- The characters of the language-parameter pattern `'lang='` that the
source tests with `embedUrl.includes('lang=')`. -/
def langPat : List Char := ['l', 'a', 'n', 'g', '=']

/-- First VK host pattern tested by `addVkLanguageParam`. -/
def vkPat1 : List Char := "vk.com/video_ext.php".toList

/-- Second VK host pattern tested by `addVkLanguageParam`. -/
def vkPat2 : List Char := "vkvideo.ru/video_ext.php".toList

/-- The VK-embed-URL test of `addVkLanguageParam` (embeds.js line 38). -/
def isVkEmbedUrl (u : List Char) : Bool :=
  containsSeq vkPat1 u || containsSeq vkPat2 u

/-- `addVkLanguageParam` (embeds.js lines 32-50) on the characters of the
URL.  A falsy (empty) URL is returned unchanged (the `typeof` guard is
vacuous here since the model's input is always a string); a non-VK URL is
returned unchanged; a VK URL already containing `'lang='` is returned
unchanged; otherwise `lang=en` is appended behind `'&'` when the URL already
has a query (contains `'?'`) and behind `'?'` otherwise. -/
def addVkLanguageParam (u : List Char) : List Char :=
  if u.isEmpty then u
  else if isVkEmbedUrl u then
    if containsSeq langPat u then u
    else
      let separator : Char := if u.contains '?' then '&' else '?'
      u ++ separator :: "lang=en".toList
  else u

/-- Number of occurrences of `p` as a contiguous substring of `l` (number of
suffixes of `l` that start with `p`); used to state that the language
parameter appears exactly once. -/
def countSubstr (p l : List Char) : Nat :=
  l.tails.countP fun t => p.isPrefixOf t

/-- `getActiveStream` (stream-controls.js lines 227-229). -/
def getActiveStream (st : StreamSt) : String :=
  st.activeStream

/-- Module initial state: `let activeStream = 'kick'` (stream-controls.js
line 15); the initial DOM is arbitrary. -/
def initialStreamState (d : StreamDom) : StreamSt :=
  { activeStream := "kick", dom := d }

/-! ## Section Navigator (first document of events.js, scripts/navigation.js) -/

/-- One identified DOM element as `switchSection` sees it: `getElementById`
can return any element of the document, so `isSection` records whether the
element carries the `section` class (belongs to the navigator's `sections`
NodeList) and `active` its `active` class. -/
structure DomElement where
  id : String
  isSection : Bool
  active : Bool
deriving DecidableEq, Repr

/-- One navigation button: its `data-section` attribute and `active` class. -/
structure NavButton where
  dataSection : String
  active : Bool
deriving DecidableEq, Repr

/-- Navigator state: the document's identified elements (sections and other
elements such as `#chat-wrapper` or the stream tabs), the nav buttons, and
the module-level `activeSection` variable, projected onto the `active`
markers the claim is about. -/
structure NavState where
  elements : List DomElement
  navButtons : List NavButton
  activeSection : Option String
deriving DecidableEq, Repr

/-- `document.getElementById` over the modelled elements (ids are assumed
unique in the document, as the invariant below records). -/
def getElementById (st : NavState) (id : String) : Option DomElement :=
  st.elements.find? fun el => el.id == id

/-- `currentSection.classList.remove('active')` on the element with id
`cur`. -/
def deactivateElement (cur : String) (el : DomElement) : DomElement :=
  if el.id == cur then { el with active := false } else el

/-- `targetSection.classList.add('active')` on the element with id `tgt`. -/
def activateElement (tgt : String) (el : DomElement) : DomElement :=
  if el.id == tgt then { el with active := true } else el

/-- `updateActiveButton` (events.js lines 693-704): exactly the buttons whose
`data-section` equals the new section id are marked active. -/
def updateActiveButton (buttons : List NavButton) (sectionId : String) :
    List NavButton :=
  buttons.map fun b => { b with active := b.dataSection == sectionId }

/-- `switchSection` (events.js lines 540-685) projected onto the `active`
markers and the `activeSection` variable.  A missing target returns
unchanged; re-activating audio-archives with animation is the idempotent
reset affordance (URL and highlight bookkeeping only); an already-active id
returns unchanged.  Otherwise the element with the outgoing id loses
`active` (the animated removal is modelled as completed), the target element
gains `active` (whether or not it is a section - the source never checks),
the module variable is reassigned and the buttons are updated. -/
def switchSection (st : NavState) (sectionId : String) (animate : Bool) :
    NavState :=
  match getElementById st sectionId with
  | none => st
  | some _ =>
    let isAudioArchivesClick :=
      sectionId == "audio-archives" && animate && st.activeSection == some sectionId
    if isAudioArchivesClick then st
    else if st.activeSection = some sectionId then st
    else
      let els1 : List DomElement :=
        match st.activeSection with
        | some cur => st.elements.map (deactivateElement cur)
        | none => st.elements
      let els2 : List DomElement := els1.map (activateElement sectionId)
      { elements := els2
        navButtons := updateActiveButton st.navButtons sectionId
        activeSection := some sectionId }

/-- A sequence of `switchSection` calls (each with its id and animate flag). -/
def switchSeq (st : NavState) (calls : List (String × Bool)) : NavState :=
  calls.foldl (fun s c => switchSection s c.1 c.2) st

/-- The exclusivity property of claim C7 at one state: exactly one section
element carries the active marker, it is the section named by the module's
active-section value, and a navigation control is marked active exactly when
it corresponds to that section. -/
def exactlyOneActive (st : NavState) : Prop :=
  (st.elements.countP fun el => el.isSection && el.active) = 1 ∧
  ∃ a, st.activeSection = some a ∧
    (∀ el ∈ st.elements, el.isSection = true → el.active = true → el.id = a) ∧
    (∀ b ∈ st.navButtons, b.active = (b.dataSection == a))

/-- The initialization assumption: ids are unique in the document and
exactly one (pre-marked) section is active, mirrored by `activeSection` and
the buttons (`initNavigation`, events.js lines 468-491). -/
def navInvariant (st : NavState) : Prop :=
  ((st.elements.map fun el => el.id).Nodup) ∧ exactlyOneActive st

/-- The id / section-class skeleton of the document, which `switchSection`
never changes. -/
def elementSkeleton (st : NavState) : List (String × Bool) :=
  st.elements.map fun el => (el.id, el.isSection)

/-- A call id that either names a section element or names nothing at all
(the restriction under which the amended claim C7 holds). -/
def validTarget (st : NavState) (id : String) : Prop :=
  (id, true) ∈ elementSkeleton st ∨ ∀ p ∈ elementSkeleton st, p.1 ≠ id

/-! ## Archive List Renderer: unload observer (embeds.js lines 791-812) -/

/-- One rendered archive item as seen by the unload observer: its
`highlighted` class and its lazy-load state. -/
structure ObservedItem where
  highlighted : Bool
  embedLoaded : Bool
deriving DecidableEq, Repr

/-- One `.audio-year-section`: the `data-loaded` flag of its
`.audio-year-content` child and the archive items currently inside it. -/
structure YearSection where
  loaded : Bool
  items : List ObservedItem
deriving DecidableEq, Repr

/-- `document.querySelector('.archive-item.highlighted')` resolved to the
owning year section: the first section in document order containing a
highlighted item (the source then compares
`highlightedItem.closest('.audio-year-section')` against the observed
section). -/
def firstHighlightedSection (secs : List YearSection) : Option Nat :=
  secs.findIdx? fun ys => ys.items.any fun it => it.highlighted

/-- `unloadYearContent` (embeds.js lines 638-651): every item embed is
unloaded, the content subtree is cleared and `data-loaded` reset. -/
def unloadYearContent (_ys : YearSection) : YearSection :=
  { loaded := false, items := [] }

/-- One entry processed by the unload-observer callback (embeds.js lines
791-812): `e.1` is the index of the observed year section, `e.2` its
`isIntersecting` flag.  A section that is not intersecting (far outside the
viewport by the shrunk root margin), already loaded, and not the section
owning the currently highlighted item is torn down. -/
def unloadObserverEntry (secs : List YearSection) (e : Nat × Bool) :
    List YearSection :=
  if e.2 then secs
  else
    match secs[e.1]? with
    | none => secs
    | some ys =>
      if ys.loaded then
        if firstHighlightedSection secs = some e.1 then secs
        else secs.set e.1 (unloadYearContent ys)
      else secs

/-- One firing of the unload observer: the callback iterates over all
delivered entries in order. -/
def unloadObserverFire (secs : List YearSection) (es : List (Nat × Bool)) :
    List YearSection :=
  es.foldl unloadObserverEntry secs

/-! ## Archive List Renderer: sorting and year grouping
(embeds.js `loadAudioArchives`, lines 698-758) -/

/-- The result of `new Date(iso)` on a valid timestamp string: the numeric
time value (what `dateB - dateA` subtracts) and `getFullYear()`. -/
structure DateVal where
  time : Int
  year : Int
deriving DecidableEq, Repr

/-- One configuration archive item (spec §3 data model); `created_time` is
the parsed creation date, or `none` when the field is absent. -/
structure ArchiveItem where
  platform : String
  title : String
  url : String
  embedUrl : Option String
  key : Option String
  created_time : Option DateVal
deriving DecidableEq, Repr

/-- The sort key of embeds.js lines 716-717:
`a.created_time ? new Date(a.created_time) : new Date(0)`. -/
def timeKey (it : ArchiveItem) : Int :=
  match it.created_time with
  | some d => d.time
  | none => 0

/-- Stable insertion of an item arriving later in the input into an
already-sorted (descending) prefix: it goes before the first entry with a
strictly smaller key, i.e. after every earlier entry with an equal or larger
key - exactly where a stable sort with comparator `dateB - dateA` puts it. -/
def insertDesc (x : ArchiveItem) : List ArchiveItem → List ArchiveItem
  | [] => [x]
  | y :: ys =>
    if timeKey y < timeKey x then x :: y :: ys else y :: insertDesc x ys

/-- `[...audioArchives].sort((a, b) => dateB - dateA)` (embeds.js lines
715-719): modern `Array.prototype.sort` is stable, and the stable descending
sort is computed by left-to-right insertion. -/
def sortJs (l : List ArchiveItem) : List ArchiveItem :=
  l.foldl (fun acc x => insertDesc x acc) []

/-- Year keys of the grouping `Map`: the numeric `getFullYear()` result, or
the string sentinel `'Unknown'` for undated items. -/
inductive YearKey
  | year (y : Int)
  | unknown
deriving DecidableEq, Repr

/-- The grouping key of embeds.js lines 724-726. -/
def yearKey (it : ArchiveItem) : YearKey :=
  match it.created_time with
  | some d => .year d.year
  | none => .unknown

/-- One step of building `archivesByYear` (embeds.js lines 728-731): an
existing year group gets the item pushed at its end; a new year key is
appended (a JS `Map` preserves key insertion order). -/
def insertGrouped (gs : List (YearKey × List ArchiveItem)) (k : YearKey)
    (x : ArchiveItem) : List (YearKey × List ArchiveItem) :=
  match gs with
  | [] => [(k, [x])]
  | (k2, xs) :: rest =>
    if k2 = k then (k2, xs ++ [x]) :: rest
    else (k2, xs) :: insertGrouped rest k x

/-- `archivesByYear` (embeds.js lines 722-732) built over a list of items. -/
def groupByYear (l : List ArchiveItem) : List (YearKey × List ArchiveItem) :=
  l.foldl (fun gs x => insertGrouped gs (yearKey x) x) []

/-- `cmp(a, b) <= 0` for the year comparator of embeds.js lines 735-739:
`'Unknown'` sorts after everything (the comparator returns 1 whenever `a` is
`'Unknown'`), years sort descending. -/
def keyLE (a b : YearKey) : Bool :=
  match a, b with
  | .unknown, _ => false
  | .year _, .unknown => true
  | .year x, .year y => y ≤ x

def insertKey (k : YearKey) : List YearKey → List YearKey
  | [] => [k]
  | y :: ys => if keyLE k y then k :: y :: ys else y :: insertKey k ys

/-- `Array.from(archivesByYear.keys()).sort(cmp)` (embeds.js lines
735-739). -/
def sortKeys (l : List YearKey) : List YearKey :=
  l.foldl (fun acc k => insertKey k acc) []

/-- `archivesByYear.get(year)` as association-list lookup. -/
def lookupGroup (gs : List (YearKey × List ArchiveItem)) (k : YearKey) :
    Option (List ArchiveItem) :=
  match gs.find? (fun p => p.1 == k) with
  | some p => some p.2
  | none => none

/-- The year groups exactly in the order `loadAudioArchives` renders them:
one section per key of the sorted key list, holding that key's group. -/
def archivesByYearGroups (l : List ArchiveItem) :
    List (YearKey × List ArchiveItem) :=
  let grouped := groupByYear (sortJs l)
  (sortKeys (grouped.map Prod.fst)).filterMap fun k =>
    (lookupGroup grouped k).map fun items => (k, items)

/-- The group ordering claim C3 asserts between adjacent keys: strictly
descending years, with `'Unknown'` after every year. -/
def keyDescAfter : YearKey → YearKey → Prop :=
  fun a b =>
    match a, b with
    | .year x, .year y => y < x
    | .year _, .unknown => True
    | .unknown, _ => False

/-- The sort-order property exactly as claim C4 states it, over the sorted
archive list: for distinct dated items, being placed earlier is equivalent
to having a greater-or-equal timestamp, and every undated item is placed
after every dated item. -/
def sortClaimLiteral (l : List ArchiveItem) : Prop :=
  (∀ i j : Fin (sortJs l).length, i ≠ j →
    ((sortJs l).get i).created_time.isSome = true →
    ((sortJs l).get j).created_time.isSome = true →
    (i.val < j.val ↔
      timeKey ((sortJs l).get j) ≤ timeKey ((sortJs l).get i))) ∧
  (∀ i j : Fin (sortJs l).length,
    ((sortJs l).get i).created_time = none →
    ((sortJs l).get j).created_time.isSome = true →
    j.val < i.val)

/-! ## Configuration Loader (second document of events.js, scripts/config.js) -/

/-- JSON values as `response.json()` can produce them, plus `undefined` for
missing-property access. -/
inductive JsValue
  | vnull
  | vundefined
  | vbool (b : Bool)
  | vnum (n : Int)
  | vstr (s : String)
  | varr (elems : List JsValue)
  | vobj (fields : List (String × JsValue))

/-- JS truthiness (`!data` is the negation of this). -/
def jsTruthy : JsValue → Bool
  | .vnull => false
  | .vundefined => false
  | .vbool b => b
  | .vnum n => n != 0
  | .vstr s => s != ""
  | .varr _ => true
  | .vobj _ => true

/-- `typeof data === 'object'`: true for `null`, arrays and objects. -/
def typeofObject : JsValue → Bool
  | .vnull => true
  | .varr _ => true
  | .vobj _ => true
  | _ => false

/-- Property access `data.name`: `undefined` on non-objects and on missing
keys. -/
def getField : JsValue → String → JsValue
  | .vobj fields, name =>
    match fields.find? (fun p => p.1 == name) with
    | some p => p.2
    | none => .vundefined
  | _, _ => .vundefined

/-- `Array.isArray`. -/
def isArray : JsValue → Bool
  | .varr _ => true
  | _ => false

/-- Result of one `fetch('data/archives.json?...')`: either the promise
rejects (network error) or a response arrives with its `ok` flag, status,
status text, and a body whose JSON parse either fails or yields a value. -/
inductive FetchOutcome
  | netErr (msg : String)
  | resp (ok : Bool) (status : Nat) (statusText : String)
      (body : Except String JsValue)

/-- The fetch-and-validate `try` body of `loadConfig` (config.js lines
779-802): a non-ok response, a JSON parse failure, a falsy or non-object
document, or a missing `audio` / `video` array each produce the error the
source throws; otherwise the parsed document is returned. -/
def fetchAndValidate : FetchOutcome → Except String JsValue
  | .netErr msg => .error msg
  | .resp ok status statusText body =>
    if ok = false then
      .error ("Failed to load configuration: " ++ toString status ++ " " ++ statusText)
    else
      match body with
      | .error msg => .error msg
      | .ok data =>
        if jsTruthy data = false ∨ typeofObject data = false then
          .error "Invalid configuration format: expected an object"
        else if isArray (getField data "audio") = false then
          .error "Invalid configuration format: audio must be an array"
        else if isArray (getField data "video") = false then
          .error "Invalid configuration format: video must be an array"
        else .ok data

/-- The module-level caches of config.js: `configData` and `configError`
(both `null` initially). -/
structure ConfigState where
  configData : Option JsValue
  configError : Option String

/-- The part of `loadConfig` reached when the `configData` cache is not
truthy: re-throw a cached error, otherwise fetch, validate, and cache the
result or the error (config.js lines 775-809). -/
def loadConfigFetch (st : ConfigState) (o : FetchOutcome) :
    Except String JsValue × ConfigState :=
  match st.configError with
  | some e => (.error e, st)
  | none =>
    match fetchAndValidate o with
    | .ok v => (.ok v, { st with configData := some v })
    | .error e => (.error e, { st with configError := some e })

/-- `loadConfig` (config.js lines 770-810) as a state transformer over the
caches; the fetch outcome `o` is consulted only when neither cache is set.
`if (configData) return configData` tests JS truthiness of the cached
document. -/
def loadConfig (st : ConfigState) (o : FetchOutcome) :
    Except String JsValue × ConfigState :=
  match st.configData with
  | some d => if jsTruthy d then (.ok d, st) else loadConfigFetch st o
  | none => loadConfigFetch st o

/-- `resetConfig` (config.js lines 847-850): clears both caches. -/
def resetConfig (_st : ConfigState) : ConfigState :=
  { configData := none, configError := none }

/-- Initial module state: `configData = null`, `configError = null`. -/
def initialConfigState : ConfigState :=
  { configData := none, configError := none }

end OrangeTerry

namespace OrangeTerry

/-- C1: Mount/unload/reload round-trip.  For every iframe embed mounted with
source `embedUrl` by `createIframeEmbed`, applying the audio-archives unload
(`unloadSectionMedia`'s per-iframe body) and then the audio-archives reload
(`reloadSectionMedia`'s per-iframe body) leaves an iframe whose effective
source equals the source produced by the original mount, and whose stored
recoverable source still equals it (so normalization, e.g. the VK language
parameter the caller applied before mounting, is present exactly as mounted
and never re-applied). -/
theorem mount_unload_reload_roundtrip (embedUrl loc w h t : String) :
    (reloadAudioArchiveIframe loc
        (captureAndBlankIframe loc (createIframeEmbed embedUrl w h t))).src
      = embedUrl ∧
    (reloadAudioArchiveIframe loc
        (captureAndBlankIframe loc (createIframeEmbed embedUrl w h t))).dataOriginalSrc
      = some embedUrl := by
  by_cases h1 : embedUrl = ""
  · subst h1
    simp [createIframeEmbed, captureAndBlankIframe, reloadAudioArchiveIframe]
  · by_cases h2 : embedUrl = "about:blank"
    · subst h2
      simp [createIframeEmbed, captureAndBlankIframe, reloadAudioArchiveIframe]
    · by_cases h3 : embedUrl = loc
      · subst h3
        simp [createIframeEmbed, captureAndBlankIframe, reloadAudioArchiveIframe,
          h1, h2]
      · simp [createIframeEmbed, captureAndBlankIframe, reloadAudioArchiveIframe,
          h1, h2, h3, attrFalsy]

/-- C2: Idempotent unload.  Unloading an already-unloaded item leaves its
recoverable `data-original-src` attribute unchanged: the per-iframe
capture-and-blank step of `unloadSectionMedia` is idempotent (in particular it
never overwrites the stored original source with the blank value), and a
second call to `unloadArchiveItemEmbed` on an item whose embed is already
unloaded returns the widget map and the item completely unchanged. -/
theorem unload_idempotent (loc : String) (f : Iframe) (widgets : List String)
    (it : ArchiveItemDom) :
    captureAndBlankIframe loc (captureAndBlankIframe loc f)
        = captureAndBlankIframe loc f ∧
    (captureAndBlankIframe loc (captureAndBlankIframe loc f)).dataOriginalSrc
        = (captureAndBlankIframe loc f).dataOriginalSrc ∧
    unloadArchiveItemEmbed loc (unloadArchiveItemEmbed loc widgets it).1
        (unloadArchiveItemEmbed loc widgets it).2
      = unloadArchiveItemEmbed loc widgets it := by
  refine ⟨?_, ?_, ?_⟩
  · by_cases hc : f.src ≠ "" ∧ f.src ≠ "about:blank" ∧ f.src ≠ loc
    · simp [captureAndBlankIframe, hc]
    · simp only [captureAndBlankIframe, if_neg hc]
  · by_cases hc : f.src ≠ "" ∧ f.src ≠ "about:blank" ∧ f.src ≠ loc
    · simp [captureAndBlankIframe, hc]
    · simp only [captureAndBlankIframe, if_neg hc]
  · cases hl : it.embedLoaded
    · simp [unloadArchiveItemEmbed, hl]
    · simp [unloadArchiveItemEmbed, hl]

/-- Helper: an invalid target returns immediately. -/
theorem switchStream_eq_of_invalid (st : StreamSt) (s : String)
    (h : s ≠ "kick" ∧ s ≠ "twitch") : switchStream st s = (st, []) := by
  unfold switchStream
  rw [if_pos h]

/-- Helper: the already-active target returns immediately. -/
theorem switchStream_eq_of_same (st : StreamSt) (s : String)
    (h : st.activeStream = s) : switchStream st s = (st, []) := by
  unfold switchStream
  by_cases h1 : s ≠ "kick" ∧ s ≠ "twitch"
  · rw [if_pos h1]
  · rw [if_neg h1, if_pos h]

/-- Helper: missing tab or player elements abort before any mutation. -/
theorem switchStream_eq_of_missing_dom (st : StreamSt) (s : String)
    (h1 : ¬(s ≠ "kick" ∧ s ≠ "twitch")) (h2 : ¬(st.activeStream = s))
    (h3 : st.dom.kickTab.isNone ∨ st.dom.twitchTab.isNone ∨
      st.dom.kickPlayer.isNone ∨ st.dom.twitchPlayer.isNone) :
    switchStream st s = (st, []) := by
  unfold switchStream
  rw [if_neg h1, if_neg h2, if_pos h3]

/-- C9: Duplicate stream switch is a no-op.  Calling `switchStream s` when
`s` is already the active stream, or when `s` is not `'kick'` or `'twitch'`,
returns the state completely unchanged (tab markers, player containers,
iframes, chat panel and the active-stream value) and makes no external
unload or reload call. -/
theorem switchStream_duplicate_or_invalid_noop (st : StreamSt) (s : String)
    (h : (s ≠ "kick" ∧ s ≠ "twitch") ∨ st.activeStream = s) :
    switchStream st s = (st, []) := by
  rcases h with h | h
  · exact switchStream_eq_of_invalid st s h
  · exact switchStream_eq_of_same st s h

/-- Witness for C9: with the module's initial state ('kick' active),
switching to 'kick' again changes nothing and makes no external call. -/
theorem switchStream_duplicate_or_invalid_noop_witness :
    switchStream
        (initialStreamState
          ⟨some true, some false, some true, some false, some true, none, none, false⟩)
        "kick"
      = (initialStreamState
          ⟨some true, some false, some true, some false, some true, none, none, false⟩, []) :=
  switchStream_duplicate_or_invalid_noop _ _ (Or.inr rfl)

/-- Step lemma for C10: one `switchStream` call keeps the active-stream value
inside the set of the two platform identifiers. -/
theorem switchStream_preserves_range (st : StreamSt) (s : String)
    (h : st.activeStream = "kick" ∨ st.activeStream = "twitch") :
    (switchStream st s).1.activeStream = "kick" ∨
    (switchStream st s).1.activeStream = "twitch" := by
  by_cases h1 : s ≠ "kick" ∧ s ≠ "twitch"
  · rw [switchStream_eq_of_invalid st s h1]
    exact h
  · by_cases h2 : st.activeStream = s
    · rw [switchStream_eq_of_same st s h2]
      exact h
    · by_cases h3 : st.dom.kickTab.isNone ∨ st.dom.twitchTab.isNone ∨
          st.dom.kickPlayer.isNone ∨ st.dom.twitchPlayer.isNone
      · rw [switchStream_eq_of_missing_dom st s h1 h2 h3]
        exact h
      · have hs : s = "kick" ∨ s = "twitch" := by
          rcases not_and_or.mp h1 with hk | ht
          · exact Or.inl (not_not.mp hk)
          · exact Or.inr (not_not.mp ht)
        have hmain : (switchStream st s).1.activeStream = s := by
          unfold switchStream
          rw [if_neg h1, if_neg h2, if_neg h3]
          by_cases hk : s = "kick"
          · simp only [if_pos hk]
          · simp only [if_neg hk]
        rw [hmain]
        exact hs

/-! ### Archive sort order (C4) -/

theorem insertDesc_perm (x : ArchiveItem) (l : List ArchiveItem) :
    (insertDesc x l).Perm (x :: l) := by
  induction l with
  | nil => exact List.Perm.refl _
  | cons y ys ih =>
    unfold insertDesc
    by_cases h : timeKey y < timeKey x
    · rw [if_pos h]
    · rw [if_neg h]
      exact (ih.cons y).trans (List.Perm.swap x y ys)

theorem sortJs_perm (l : List ArchiveItem) : (sortJs l).Perm l := by
  suffices hgen : ∀ (l acc : List ArchiveItem),
      (l.foldl (fun acc x => insertDesc x acc) acc).Perm (acc ++ l) by
    simpa using hgen l []
  intro l
  induction l with
  | nil =>
    intro acc
    rw [List.foldl_nil, List.append_nil]
  | cons x xs ih =>
    intro acc
    rw [List.foldl_cons]
    refine (ih (insertDesc x acc)).trans ?_
    refine (List.Perm.append_right xs (insertDesc_perm x acc)).trans ?_
    exact List.perm_middle.symm

theorem mem_insertDesc {x b : ArchiveItem} {l : List ArchiveItem}
    (h : b ∈ insertDesc x l) : b = x ∨ b ∈ l :=
  List.mem_cons.mp ((insertDesc_perm x l).mem_iff.mp h)

theorem insertDesc_sorted (x : ArchiveItem) (l : List ArchiveItem)
    (h : l.Pairwise (fun a b => timeKey b ≤ timeKey a)) :
    (insertDesc x l).Pairwise (fun a b => timeKey b ≤ timeKey a) := by
  induction l with
  | nil => simp [insertDesc]
  | cons y ys ih =>
    rw [List.pairwise_cons] at h
    obtain ⟨hy, hys⟩ := h
    unfold insertDesc
    by_cases hcmp : timeKey y < timeKey x
    · rw [if_pos hcmp]
      refine List.pairwise_cons.mpr ⟨?_, List.pairwise_cons.mpr ⟨hy, hys⟩⟩
      intro b hb
      rcases List.mem_cons.mp hb with rfl | hb
      · exact le_of_lt hcmp
      · exact le_trans (hy b hb) (le_of_lt hcmp)
    · rw [if_neg hcmp]
      refine List.pairwise_cons.mpr ⟨?_, ih hys⟩
      intro b hb
      rcases mem_insertDesc hb with rfl | hb
      · exact le_of_not_lt hcmp
      · exact hy b hb

theorem sortJs_sorted (l : List ArchiveItem) :
    (sortJs l).Pairwise (fun a b => timeKey b ≤ timeKey a) := by
  suffices hgen : ∀ (l acc : List ArchiveItem),
      acc.Pairwise (fun a b => timeKey b ≤ timeKey a) →
      (l.foldl (fun acc x => insertDesc x acc) acc).Pairwise
        (fun a b => timeKey b ≤ timeKey a) by
    exact hgen l [] List.Pairwise.nil
  intro l
  induction l with
  | nil =>
    intro acc h
    exact h
  | cons x xs ih =>
    intro acc h
    rw [List.foldl_cons]
    exact ih _ (insertDesc_sorted x acc h)

/-- Counterexample to C4 as stated: with two items sharing the timestamp 5,
one dated before the epoch (timestamp -5) and one undated item, the sorted
list is [b, c, u, a]; the claimed equivalence fails for the tied pair (c is
not before b although their timestamps are equal), and the pre-epoch dated
item a sorts after the undated item u. -/
theorem sort_claim_counterexample :
    ¬ sortClaimLiteral
        [{ platform := "mixcloud", title := "b", url := "", embedUrl := none,
            key := none, created_time := some { time := 5, year := 1970 } },
          { platform := "mixcloud", title := "c", url := "", embedUrl := none,
            key := none, created_time := some { time := 5, year := 1970 } },
          { platform := "mixcloud", title := "a", url := "", embedUrl := none,
            key := none, created_time := some { time := -5, year := 1969 } },
          { platform := "hearthis", title := "u", url := "", embedUrl := none,
            key := none, created_time := none }] := by
  unfold sortClaimLiteral
  decide

/-- C4 (amended): the sorted archive list is a permutation of the input that
is non-increasing in the effective sort key (the timestamp, with undated
items keyed as epoch zero) - so two items with equal timestamps keep their
relative input order rather than satisfying a strict iff - and every undated
item is placed after every dated item whose timestamp is positive
(post-epoch); a dated item with a negative (pre-epoch) timestamp sorts after
undated items. -/
theorem sortJs_spec (l : List ArchiveItem) :
    (sortJs l).Perm l ∧
    (sortJs l).Pairwise (fun a b => timeKey b ≤ timeKey a) ∧
    (∀ i j : Fin (sortJs l).length,
      ((sortJs l).get i).created_time = none →
      ((sortJs l).get j).created_time.isSome = true →
      0 < timeKey ((sortJs l).get j) → j.val < i.val) := by
  refine ⟨sortJs_perm l, sortJs_sorted l, ?_⟩
  intro i j hi hj hpos
  by_contra hcon
  push_neg at hcon
  have hij : i.val ≠ j.val := by
    intro hv
    have hieq : i = j := Fin.ext hv
    rw [hieq] at hi
    rw [hi] at hj
    simp at hj
  have hlt : i < j := by
    have : i.val < j.val := by omega
    exact this
  have hpair := List.pairwise_iff_get.mp (sortJs_sorted l) i j hlt
  have hzero : timeKey ((sortJs l).get i) = 0 := by
    unfold timeKey
    rw [hi]
  omega

/-- Witness for the amended C4: on a concrete two-item list the sorted list
is a permutation of the input and the undated item lands after the dated
one. -/
theorem sortJs_spec_witness :
    (sortJs [⟨"hearthis", "u", "", none, none, none⟩,
        ⟨"mixcloud", "b", "", none, none, some ⟨5, 1970⟩⟩]).Perm
      [⟨"hearthis", "u", "", none, none, none⟩,
        ⟨"mixcloud", "b", "", none, none, some ⟨5, 1970⟩⟩] ∧
    (0 : Nat) < 1 :=
  ⟨(sortJs_spec [⟨"hearthis", "u", "", none, none, none⟩,
      ⟨"mixcloud", "b", "", none, none, some ⟨5, 1970⟩⟩]).1,
    (sortJs_spec [⟨"hearthis", "u", "", none, none, none⟩,
      ⟨"mixcloud", "b", "", none, none, some ⟨5, 1970⟩⟩]).2.2
      ⟨1, by decide⟩ ⟨0, by decide⟩ (by decide) (by decide) (by decide)⟩

/-! ### Year grouping invariant (C3) -/

theorem insertGrouped_keys (gs : List (YearKey × List ArchiveItem))
    (k : YearKey) (x : ArchiveItem) :
    (insertGrouped gs k x).map Prod.fst = gs.map Prod.fst ∨
    ((insertGrouped gs k x).map Prod.fst = gs.map Prod.fst ++ [k] ∧
      k ∉ gs.map Prod.fst) := by
  induction gs with
  | nil => exact Or.inr ⟨rfl, by simp⟩
  | cons p rest ih =>
    obtain ⟨k2, xs⟩ := p
    unfold insertGrouped
    by_cases hk : k2 = k
    · rw [if_pos hk]
      exact Or.inl (by simp)
    · rw [if_neg hk]
      rcases ih with ih | ⟨ih1, ih2⟩
      · exact Or.inl (by simp [ih])
      · refine Or.inr ⟨by simp [ih1], ?_⟩
        simp only [List.map_cons, List.mem_cons]
        rintro (rfl | hc)
        · exact hk rfl
        · exact ih2 hc

theorem insertGrouped_keys_nodup (gs : List (YearKey × List ArchiveItem))
    (k : YearKey) (x : ArchiveItem) (h : (gs.map Prod.fst).Nodup) :
    ((insertGrouped gs k x).map Prod.fst).Nodup := by
  rcases insertGrouped_keys gs k x with heq | ⟨heq, hnotin⟩
  · rw [heq]
    exact h
  · rw [heq, List.nodup_append]
    refine ⟨h, List.nodup_singleton k, ?_⟩
    intro a ha hb
    rw [List.mem_singleton] at hb
    subst hb
    exact hnotin ha

theorem insertGrouped_flatten (gs : List (YearKey × List ArchiveItem))
    (k : YearKey) (x : ArchiveItem) :
    (((insertGrouped gs k x).map Prod.snd).flatten).Perm
      (((gs.map Prod.snd).flatten) ++ [x]) := by
  induction gs with
  | nil =>
    simp [insertGrouped]
  | cons p rest ih =>
    obtain ⟨k2, xs⟩ := p
    unfold insertGrouped
    by_cases hk : k2 = k
    · rw [if_pos hk]
      simp only [List.map_cons, List.flatten_cons]
      rw [List.append_assoc, List.append_assoc]
      exact List.Perm.append_left xs List.perm_append_comm
    · rw [if_neg hk]
      simp only [List.map_cons, List.flatten_cons]
      rw [List.append_assoc]
      exact List.Perm.append_left xs ih

theorem insertGrouped_wf (gs : List (YearKey × List ArchiveItem))
    (x : ArchiveItem) (h : ∀ p ∈ gs, ∀ y ∈ p.2, yearKey y = p.1) :
    ∀ p ∈ insertGrouped gs (yearKey x) x, ∀ y ∈ p.2, yearKey y = p.1 := by
  induction gs with
  | nil =>
    intro p hp y hy
    simp only [insertGrouped, List.mem_singleton] at hp
    subst hp
    simp only [List.mem_singleton] at hy
    subst hy
    rfl
  | cons q rest ih =>
    obtain ⟨k2, xs⟩ := q
    intro p hp y hy
    unfold insertGrouped at hp
    by_cases hk : k2 = yearKey x
    · rw [if_pos hk] at hp
      rcases List.mem_cons.mp hp with rfl | hp
      · rcases List.mem_append.mp hy with hy | hy
        · exact h (k2, xs) (List.mem_cons_self _ _) y hy
        · rw [List.mem_singleton] at hy
          subst hy
          exact hk.symm
      · exact h p (List.mem_cons_of_mem _ hp) y hy
    · rw [if_neg hk] at hp
      rcases List.mem_cons.mp hp with rfl | hp
      · exact h (k2, xs) (List.mem_cons_self _ _) y hy
      · exact ih (fun q hq => h q (List.mem_cons_of_mem _ hq)) p hp y hy

/-- The grouping pass: keys stay duplicate-free, the groups' contents are a
permutation of the grouped list, and every group member has its group's
key. -/
theorem groupByYear_props (l : List ArchiveItem) :
    ((groupByYear l).map Prod.fst).Nodup ∧
    (((groupByYear l).map Prod.snd).flatten).Perm l ∧
    (∀ p ∈ groupByYear l, ∀ y ∈ p.2, yearKey y = p.1) := by
  suffices hgen : ∀ (l : List ArchiveItem)
      (gs : List (YearKey × List ArchiveItem)),
      (gs.map Prod.fst).Nodup →
      (∀ p ∈ gs, ∀ y ∈ p.2, yearKey y = p.1) →
      (((l.foldl (fun gs x => insertGrouped gs (yearKey x) x) gs).map
          Prod.fst).Nodup) ∧
      ((((l.foldl (fun gs x => insertGrouped gs (yearKey x) x) gs).map
          Prod.snd).flatten).Perm (((gs.map Prod.snd).flatten) ++ l)) ∧
      (∀ p ∈ l.foldl (fun gs x => insertGrouped gs (yearKey x) x) gs,
        ∀ y ∈ p.2, yearKey y = p.1) by
    obtain ⟨h1, h2, h3⟩ := hgen l [] (by simp) (by simp)
    exact ⟨h1, by simpa using h2, h3⟩
  intro l
  induction l with
  | nil =>
    intro gs h1 h2
    refine ⟨h1, ?_, h2⟩
    rw [List.foldl_nil, List.append_nil]
  | cons x xs ih =>
    intro gs h1 h2
    rw [List.foldl_cons]
    obtain ⟨a1, a2, a3⟩ := ih (insertGrouped gs (yearKey x) x)
      (insertGrouped_keys_nodup gs _ x h1) (insertGrouped_wf gs x h2)
    refine ⟨a1, ?_, a3⟩
    refine a2.trans ?_
    refine (List.Perm.append_right xs (insertGrouped_flatten gs (yearKey x) x)).trans ?_
    rw [List.append_assoc]
    exact List.Perm.refl _

theorem keyLE_total (a b : YearKey) (hne : a ≠ b) (h : ¬ keyLE a b = true) :
    keyLE b a = true := by
  cases a with
  | unknown =>
    cases b with
    | unknown => exact absurd rfl hne
    | year y => rfl
  | year x =>
    cases b with
    | unknown => exact absurd rfl h
    | year y =>
      simp only [keyLE, decide_eq_true_eq] at h ⊢
      omega

theorem keyLE_trans (a b c : YearKey) (h1 : keyLE a b = true)
    (h2 : keyLE b c = true) : keyLE a c = true := by
  cases a with
  | unknown => simp [keyLE] at h1
  | year x =>
    cases c with
    | unknown => rfl
    | year z =>
      cases b with
      | unknown => simp [keyLE] at h2
      | year y =>
        simp only [keyLE, decide_eq_true_eq] at h1 h2 ⊢
        omega

theorem insertKey_perm (k : YearKey) (l : List YearKey) :
    (insertKey k l).Perm (k :: l) := by
  induction l with
  | nil => exact List.Perm.refl _
  | cons y ys ih =>
    unfold insertKey
    by_cases h : keyLE k y = true
    · rw [if_pos h]
    · rw [if_neg h]
      exact (ih.cons y).trans (List.Perm.swap k y ys)

theorem mem_insertKey {k b : YearKey} {l : List YearKey}
    (h : b ∈ insertKey k l) : b = k ∨ b ∈ l :=
  List.mem_cons.mp ((insertKey_perm k l).mem_iff.mp h)

theorem insertKey_sorted (k : YearKey) (l : List YearKey) (hnotin : k ∉ l)
    (h : l.Pairwise (fun a b => keyLE a b = true)) :
    (insertKey k l).Pairwise (fun a b => keyLE a b = true) := by
  induction l with
  | nil => simp [insertKey]
  | cons y ys ih =>
    rw [List.pairwise_cons] at h
    obtain ⟨hy, hys⟩ := h
    have hkny : k ≠ y := fun hc => hnotin (hc ▸ List.mem_cons_self y ys)
    have hknotys : k ∉ ys := fun hc => hnotin (List.mem_cons_of_mem _ hc)
    unfold insertKey
    by_cases hcmp : keyLE k y = true
    · rw [if_pos hcmp]
      refine List.pairwise_cons.mpr ⟨?_, List.pairwise_cons.mpr ⟨hy, hys⟩⟩
      intro b hb
      rcases List.mem_cons.mp hb with rfl | hb
      · exact hcmp
      · exact keyLE_trans k y b hcmp (hy b hb)
    · rw [if_neg hcmp]
      refine List.pairwise_cons.mpr ⟨?_, ih hknotys hys⟩
      intro b hb
      rcases mem_insertKey hb with heq | hb
      · rw [heq]
        exact keyLE_total k y hkny hcmp
      · exact hy b hb

theorem sortKeys_perm (l : List YearKey) : (sortKeys l).Perm l := by
  suffices hgen : ∀ (l acc : List YearKey),
      (l.foldl (fun acc k => insertKey k acc) acc).Perm (acc ++ l) by
    simpa using hgen l []
  intro l
  induction l with
  | nil =>
    intro acc
    rw [List.foldl_nil, List.append_nil]
  | cons k ks ih =>
    intro acc
    rw [List.foldl_cons]
    refine (ih (insertKey k acc)).trans ?_
    refine (List.Perm.append_right ks (insertKey_perm k acc)).trans ?_
    exact List.perm_middle.symm

theorem sortKeys_sorted (l : List YearKey) (hnd : l.Nodup) :
    (sortKeys l).Pairwise (fun a b => keyLE a b = true) := by
  suffices hgen : ∀ (l acc : List YearKey),
      (acc ++ l).Nodup →
      acc.Pairwise (fun a b => keyLE a b = true) →
      (l.foldl (fun acc k => insertKey k acc) acc).Pairwise
        (fun a b => keyLE a b = true) by
    exact hgen l [] (by simpa using hnd) List.Pairwise.nil
  intro l
  induction l with
  | nil =>
    intro acc _ h2
    exact h2
  | cons k ks ih =>
    intro acc hnd2 hs
    rw [List.foldl_cons]
    have hknacc : k ∉ acc := by
      rw [List.nodup_append] at hnd2
      exact fun hc => hnd2.2.2 hc (List.mem_cons_self _ _)
    refine ih (insertKey k acc) ?_ (insertKey_sorted k acc hknacc hs)
    have hperm2 : (insertKey k acc ++ ks).Perm (acc ++ k :: ks) := by
      refine (List.Perm.append_right ks (insertKey_perm k acc)).trans ?_
      exact List.perm_middle.symm
    exact (hperm2.nodup_iff).mpr hnd2

theorem lookupGroup_mem {gs : List (YearKey × List ArchiveItem)}
    {k : YearKey} {v : List ArchiveItem} (h : lookupGroup gs k = some v) :
    (k, v) ∈ gs := by
  unfold lookupGroup at h
  cases hf : gs.find? (fun p => p.1 == k) with
  | none =>
    rw [hf] at h
    exact Option.noConfusion h
  | some p =>
    rw [hf] at h
    injection h with h
    have hp := List.find?_some hf
    have hmem := List.mem_of_find?_eq_some hf
    obtain ⟨p1, p2⟩ := p
    simp only [beq_iff_eq] at hp
    dsimp only at h hp
    rw [← hp, ← h]
    exact hmem

theorem lookupGroup_isSome {gs : List (YearKey × List ArchiveItem)}
    {k : YearKey} (h : k ∈ gs.map Prod.fst) :
    ∃ v, lookupGroup gs k = some v := by
  induction gs with
  | nil => simp at h
  | cons p rest ih =>
    obtain ⟨k2, xs⟩ := p
    by_cases hk : k2 = k
    · refine ⟨xs, ?_⟩
      unfold lookupGroup
      rw [List.find?_cons_of_pos _ (by simp [hk])]
    · have h2 : k ∈ rest.map Prod.fst := by
        simp only [List.map_cons, List.mem_cons] at h
        rcases h with h | h
        · exact absurd h.symm hk
        · exact h
      obtain ⟨v, hv⟩ := ih h2
      refine ⟨v, ?_⟩
      unfold lookupGroup at hv ⊢
      rw [List.find?_cons_of_neg _ (by simp [hk])]
      exact hv

theorem reassemble_keys (gs : List (YearKey × List ArchiveItem))
    (ks : List YearKey)
    (hsucc : ∀ k ∈ ks, ∃ v, lookupGroup gs k = some v) :
    ((ks.filterMap fun k =>
        (lookupGroup gs k).map fun items => (k, items)).map Prod.fst) = ks := by
  induction ks with
  | nil => rfl
  | cons k ks ih =>
    obtain ⟨v, hv⟩ := hsucc k (List.mem_cons_self _ _)
    have hsome : ((lookupGroup gs k).map fun items => (k, items))
        = some (k, v) := by
      rw [hv, Option.map_some']
    rw [List.filterMap_cons, hsome]
    dsimp only
    rw [List.map_cons, ih (fun k2 hk2 => hsucc k2 (List.mem_cons_of_mem _ hk2))]

theorem reassemble_perm (gs : List (YearKey × List ArchiveItem))
    (ks : List YearKey) (hnd : (gs.map Prod.fst).Nodup)
    (hperm : ks.Perm (gs.map Prod.fst)) :
    (ks.filterMap fun k =>
      (lookupGroup gs k).map fun items => (k, items)).Perm gs := by
  induction gs generalizing ks with
  | nil =>
    have hks : ks = [] := hperm.eq_nil
    subst hks
    exact List.Perm.refl _
  | cons p rest ih =>
    obtain ⟨k0, v0⟩ := p
    have hk0 : k0 ∈ ks := hperm.mem_iff.mpr (by simp)
    obtain ⟨as, bs, rfl⟩ := List.append_of_mem hk0
    have hrest : (as ++ bs).Perm (rest.map Prod.fst) := by
      have h1 : (as ++ k0 :: bs).Perm (k0 :: (as ++ bs)) := List.perm_middle
      have h2 := h1.symm.trans hperm
      exact (List.perm_cons k0).mp h2
    have hnd2 : (rest.map Prod.fst).Nodup :=
      (List.nodup_cons.mp (by simpa using hnd)).2
    have hk0notin : k0 ∉ rest.map Prod.fst :=
      (List.nodup_cons.mp (by simpa using hnd)).1
    have hksnd : (as ++ k0 :: bs).Nodup :=
      (hperm.nodup_iff).mpr (by simpa using hnd)
    have hk0as : k0 ∉ as := by
      rw [List.nodup_append] at hksnd
      exact fun hc => hksnd.2.2 hc (List.mem_cons_self _ _)
    have hk0bs : k0 ∉ bs := by
      rw [List.nodup_append] at hksnd
      exact (List.nodup_cons.mp hksnd.2.1).1
    have hlookup0 : lookupGroup ((k0, v0) :: rest) k0 = some v0 := by
      unfold lookupGroup
      rw [List.find?_cons_of_pos _ (by simp)]
    have hlookupne : ∀ k2, k2 ≠ k0 →
        lookupGroup ((k0, v0) :: rest) k2 = lookupGroup rest k2 := by
      intro k2 hne
      unfold lookupGroup
      rw [List.find?_cons_of_neg _ (by simp [Ne.symm hne])]
    have hcongr : ∀ (L : List YearKey), k0 ∉ L →
        (L.filterMap fun k =>
          (lookupGroup ((k0, v0) :: rest) k).map fun items => (k, items))
        = L.filterMap fun k =>
          (lookupGroup rest k).map fun items => (k, items) := by
      intro L hL
      refine List.filterMap_congr ?_
      intro k2 hk2
      rw [hlookupne k2 (fun hc => hL (hc ▸ hk2))]
    have hsome : ((lookupGroup ((k0, v0) :: rest) k0).map
        fun items => (k0, items)) = some (k0, v0) := by
      rw [hlookup0, Option.map_some']
    rw [List.filterMap_append, List.filterMap_cons, hsome]
    dsimp only
    rw [hcongr as hk0as, hcongr bs hk0bs]
    refine List.perm_middle.trans ?_
    refine List.Perm.cons _ ?_
    rw [← List.filterMap_append]
    exact ih (as ++ bs) hnd2 hrest

theorem keyLE_ne_implies_desc (a b : YearKey) (h1 : keyLE a b = true)
    (h2 : a ≠ b) : keyDescAfter a b := by
  cases a with
  | unknown => simp [keyLE] at h1
  | year x =>
    cases b with
    | unknown => trivial
    | year y =>
      simp only [keyLE, decide_eq_true_eq] at h1
      have hxy : x ≠ y := fun hc => h2 (by rw [hc])
      simp only [keyDescAfter]
      omega

/-- C3: Grouping invariant.  For every archive array, the rendered year
groups are a total and disjoint partition of the array (their contents are a
permutation of it), every group member belongs to the year of its group's
key, each year key occurs exactly once, and the groups appear in strictly
descending year order with the 'Unknown' group after every year - for every
input list, hence regardless of the input order. -/
theorem archive_grouping_invariant (l : List ArchiveItem) :
    (((archivesByYearGroups l).map Prod.snd).flatten).Perm l ∧
    (∀ p ∈ archivesByYearGroups l, ∀ x ∈ p.2, yearKey x = p.1) ∧
    ((archivesByYearGroups l).map Prod.fst).Nodup ∧
    ((archivesByYearGroups l).map Prod.fst).Pairwise keyDescAfter := by
  obtain ⟨hnd, hflat, hwf⟩ := groupByYear_props (sortJs l)
  have hksperm : (sortKeys ((groupByYear (sortJs l)).map Prod.fst)).Perm
      ((groupByYear (sortJs l)).map Prod.fst) := sortKeys_perm _
  have hksnd : (sortKeys ((groupByYear (sortJs l)).map Prod.fst)).Nodup :=
    (hksperm.nodup_iff).mpr hnd
  have hsucc : ∀ k ∈ sortKeys ((groupByYear (sortJs l)).map Prod.fst),
      ∃ v, lookupGroup (groupByYear (sortJs l)) k = some v := by
    intro k hk
    exact lookupGroup_isSome (hksperm.mem_iff.mp hk)
  have hout : archivesByYearGroups l
      = (sortKeys ((groupByYear (sortJs l)).map Prod.fst)).filterMap fun k =>
          (lookupGroup (groupByYear (sortJs l)) k).map fun items =>
            (k, items) := rfl
  have hkeys : ((archivesByYearGroups l).map Prod.fst)
      = sortKeys ((groupByYear (sortJs l)).map Prod.fst) := by
    rw [hout]
    exact reassemble_keys _ _ hsucc
  have hpairs : (archivesByYearGroups l).Perm (groupByYear (sortJs l)) := by
    rw [hout]
    exact reassemble_perm _ _ hnd hksperm
  refine ⟨?_, ?_, ?_, ?_⟩
  · have hcount : ∀ a : ArchiveItem,
        (((archivesByYearGroups l).map Prod.snd).flatten).count a
          = (((groupByYear (sortJs l)).map Prod.snd).flatten).count a := by
      intro a
      rw [List.count_flatten, List.count_flatten]
      exact List.Perm.sum_eq ((hpairs.map Prod.snd).map (List.count a))
    exact (List.perm_iff_count.mpr hcount).trans (hflat.trans (sortJs_perm l))
  · intro p hp x hx
    rw [hout] at hp
    obtain ⟨k, _, hfk⟩ := List.mem_filterMap.mp hp
    cases hlk : lookupGroup (groupByYear (sortJs l)) k with
    | none =>
      rw [hlk] at hfk
      exact Option.noConfusion hfk
    | some v =>
      rw [hlk, Option.map_some'] at hfk
      injection hfk with hfk
      rw [← hfk] at hx ⊢
      exact hwf (k, v) (lookupGroup_mem hlk) x hx
  · rw [hkeys]
    exact hksnd
  · rw [hkeys]
    have hs := sortKeys_sorted ((groupByYear (sortJs l)).map Prod.fst) hnd
    have hand := List.Pairwise.and hs hksnd
    refine hand.imp ?_
    intro a b hab
    exact keyLE_ne_implies_desc a b hab.1 hab.2

/-! ### Section switch exclusivity (C7) -/

/-- A Boolean predicate holding at exactly one member of a duplicate-free
list is counted exactly once. -/
theorem countP_eq_one_unique {α : Type} (p : α → Bool) (L : List α) (t : α)
    (hnd : L.Nodup) (ht : t ∈ L) (hp : p t = true)
    (hu : ∀ x ∈ L, p x = true → x = t) : L.countP p = 1 := by
  induction L with
  | nil => simp at ht
  | cons x L ih =>
    rw [List.countP_cons]
    rcases List.mem_cons.mp ht with rfl | htl
    · rw [if_pos hp]
      have hz : L.countP p = 0 := by
        refine List.countP_eq_zero.mpr ?_
        intro y hy hpy
        have := hu y (List.mem_cons_of_mem _ hy) hpy
        subst this
        exact (List.nodup_cons.mp hnd).1 hy
      omega
    · have hxt : x ≠ t := by
        intro hxx
        subst hxx
        exact (List.nodup_cons.mp hnd).1 htl
      have hpx : ¬ p x = true := fun hpx => hxt (hu x (List.mem_cons_self _ _) hpx)
      rw [if_neg hpx]
      have := ih (List.nodup_cons.mp hnd).2 htl
        (fun y hy hpy => hu y (List.mem_cons_of_mem _ hy) hpy)
      omega

theorem deactivateElement_id (cur : String) (el : DomElement) :
    (deactivateElement cur el).id = el.id := by
  unfold deactivateElement
  split <;> rfl

theorem deactivateElement_isSection (cur : String) (el : DomElement) :
    (deactivateElement cur el).isSection = el.isSection := by
  unfold deactivateElement
  split <;> rfl

theorem activateElement_id (tgt : String) (el : DomElement) :
    (activateElement tgt el).id = el.id := by
  unfold activateElement
  split <;> rfl

theorem activateElement_isSection (tgt : String) (el : DomElement) :
    (activateElement tgt el).isSection = el.isSection := by
  unfold activateElement
  split <;> rfl

/-- One `switchSection` call preserves the navigator invariant provided its
id names a section element or names nothing. -/
theorem switchSection_preserves_invariant (st : NavState) (id : String)
    (an : Bool) (hinv : navInvariant st) (htgt : validTarget st id) :
    navInvariant (switchSection st id an) := by
  unfold switchSection
  cases hfind : getElementById st id with
  | none => exact hinv
  | some el0 =>
    dsimp only
    by_cases hac :
        (id == "audio-archives" && an && st.activeSection == some id) = true
    · rw [if_pos hac]
      exact hinv
    · rw [if_neg hac]
      by_cases hsame : st.activeSection = some id
      · rw [if_pos hsame]
        exact hinv
      · rw [if_neg hsame]
        obtain ⟨hnd, hcount, a, ha, hall, hbtn⟩ := hinv
        rw [ha]
        dsimp only
        rw [List.map_map]
        have hanid : a ≠ id := by
          intro hcontra
          exact hsame (hcontra ▸ ha)
        -- the target element: a section with id `id`
        have hel0mem : el0 ∈ st.elements := List.mem_of_find?_eq_some hfind
        have hel0id : el0.id = id := by
          have := List.find?_some hfind
          exact eq_of_beq this
        obtain ⟨t, htmem, htid, htsec⟩ :
            ∃ t ∈ st.elements, t.id = id ∧ t.isSection = true := by
          rcases htgt with htgt | htgt
          · obtain ⟨t, htmem, hteq⟩ := List.mem_map.mp htgt
            refine ⟨t, htmem, ?_, ?_⟩
            · exact congrArg Prod.fst hteq
            · exact congrArg Prod.snd hteq
          · exact absurd
              (htgt (el0.id, el0.isSection)
                (List.mem_map.mpr ⟨el0, hel0mem, rfl⟩))
              (by simp [hel0id])
        have hLnd : st.elements.Nodup := List.Nodup.of_map _ hnd
        have hdeact_t : deactivateElement a t = t := by
          simp [deactivateElement, htid, Ne.symm hanid]
        have hcompt :
            activateElement id (deactivateElement a t)
              = { t with active := true } := by
          rw [hdeact_t]
          simp [activateElement, htid]
        have huniq : ∀ x ∈ st.elements,
            (activateElement id (deactivateElement a x)).isSection = true →
            (activateElement id (deactivateElement a x)).active = true →
            x = t := by
          intro x hx hxsec hxact
          by_cases hxid : x.id = id
          · exact List.inj_on_of_nodup_map hnd hx htmem (by rw [hxid, htid])
          · exfalso
            have hxne : activateElement id (deactivateElement a x)
                = deactivateElement a x := by
              unfold activateElement
              rw [if_neg (by simp [deactivateElement_id, hxid])]
            rw [hxne] at hxsec hxact
            by_cases hxa : x.id = a
            · have : deactivateElement a x = { x with active := false } := by
                unfold deactivateElement
                rw [if_pos (by simp [hxa])]
              rw [this] at hxact
              exact Bool.noConfusion hxact
            · have : deactivateElement a x = x := by
                unfold deactivateElement
                rw [if_neg (by simp [hxa])]
              rw [this] at hxsec hxact
              exact hxa (hall x hx hxsec hxact)
        refine ⟨?_, ?_, id, rfl, ?_, ?_⟩
        · -- ids stay nodup
          have : (st.elements.map
                (activateElement id ∘ deactivateElement a)).map
                  (fun el => el.id)
              = st.elements.map fun el => el.id := by
            rw [List.map_map]
            refine List.map_congr_left ?_
            intro x _
            simp only [Function.comp]
            rw [activateElement_id, deactivateElement_id]
          rw [this]
          exact hnd
        · -- exactly one active section
          rw [List.countP_map]
          refine countP_eq_one_unique _ st.elements t hLnd htmem ?_ ?_
          · simp only [Function.comp]
            rw [hcompt]
            simp [htsec]
          · intro x hx hpx
            simp only [Function.comp, Bool.and_eq_true] at hpx
            exact huniq x hx hpx.1 hpx.2
        · -- every active section element has the new id
          intro el hel hsec hact
          obtain ⟨x, hx, hxeq⟩ := List.mem_map.mp hel
          simp only [Function.comp] at hxeq
          subst hxeq
          have := huniq x hx hsec hact
          subst this
          rw [hcompt]
          exact htid
        · -- buttons
          intro b hb
          obtain ⟨b0, _, hbeq⟩ := List.mem_map.mp hb
          subst hbeq
          rfl

/-- `switchSection` never changes which ids exist or which elements are
sections. -/
theorem switchSection_skeleton (st : NavState) (id : String) (an : Bool) :
    elementSkeleton (switchSection st id an) = elementSkeleton st := by
  unfold switchSection
  cases hfind : getElementById st id with
  | none => rfl
  | some el0 =>
    dsimp only
    by_cases hac :
        (id == "audio-archives" && an && st.activeSection == some id) = true
    · rw [if_pos hac]
    · rw [if_neg hac]
      by_cases hsame : st.activeSection = some id
      · rw [if_pos hsame]
      · rw [if_neg hsame]
        cases hcur : st.activeSection with
        | none =>
          dsimp only [elementSkeleton]
          rw [List.map_map]
          refine List.map_congr_left ?_
          intro x _
          simp only [Function.comp]
          rw [activateElement_id, activateElement_isSection]
        | some cur =>
          dsimp only [elementSkeleton]
          rw [List.map_map, List.map_map]
          refine List.map_congr_left ?_
          intro x _
          simp only [Function.comp]
          rw [activateElement_id, deactivateElement_id,
            activateElement_isSection, deactivateElement_isSection]

/-- `validTarget` only depends on the skeleton, so it transfers across
calls. -/
theorem validTarget_of_skeleton_eq (st st2 : NavState) (id : String)
    (hsk : elementSkeleton st2 = elementSkeleton st)
    (h : validTarget st id) : validTarget st2 id := by
  unfold validTarget
  rw [hsk]
  exact h

/-- C7 (amended): after any sequence of `switchSection` calls each of whose
ids either names a section element or names no element of the document,
starting from an initialized state with unique ids and one active section,
exactly one section element carries the active marker and the navigation
controls marked active are exactly those corresponding to it. -/
theorem switchSection_exclusivity_restricted (init : NavState)
    (calls : List (String × Bool)) (hinv : navInvariant init)
    (hcalls : ∀ c ∈ calls, validTarget init c.1) :
    exactlyOneActive (switchSeq init calls) := by
  suffices hgen : navInvariant (switchSeq init calls) from hgen.2
  induction calls generalizing init with
  | nil => exact hinv
  | cons c rest ih =>
    have hstep := switchSection_preserves_invariant init c.1 c.2 hinv
      (hcalls c (List.mem_cons_self _ _))
    refine ih (switchSection init c.1 c.2) hstep ?_
    intro c2 hc2
    exact validTarget_of_skeleton_eq init _ c2.1
      (switchSection_skeleton init c.1 c.2)
      (hcalls c2 (List.mem_cons_of_mem _ hc2))

/-- Witness for the amended C7 at a concrete three-element document and a
three-call sequence (a section, an unknown id, a section). -/
theorem switchSection_exclusivity_restricted_witness :
    exactlyOneActive
      (switchSeq
        { elements := [⟨"live-streams", true, true⟩,
            ⟨"audio-archives", true, false⟩, ⟨"chat-wrapper", false, false⟩]
          navButtons := [⟨"live-streams", true⟩, ⟨"audio-archives", false⟩]
          activeSection := some "live-streams" }
        [("audio-archives", true), ("unknown-id", false), ("live-streams", true)]) := by
  refine switchSection_exclusivity_restricted _ _ ⟨by decide, by decide,
    "live-streams", rfl, by decide, by decide⟩ ?_
  intro c hc
  fin_cases hc
  · exact Or.inl (by decide)
  · exact Or.inr (by decide)
  · exact Or.inl (by decide)

/-- Counterexample to C7 as stated: from an initialized state, one
`switchSection` call whose id names a non-section element (`#chat-wrapper`)
removes the active marker from the current section and marks no section
active, so the exclusivity property fails after that sequence of calls. -/
theorem switchSection_exclusivity_counterexample :
    navInvariant
      { elements := [⟨"live-streams", true, true⟩, ⟨"chat-wrapper", false, false⟩]
        navButtons := [⟨"live-streams", true⟩]
        activeSection := some "live-streams" } ∧
    ¬ exactlyOneActive
        (switchSeq
          { elements := [⟨"live-streams", true, true⟩, ⟨"chat-wrapper", false, false⟩]
            navButtons := [⟨"live-streams", true⟩]
            activeSection := some "live-streams" }
          [("chat-wrapper", true)]) := by
  constructor
  · exact ⟨by decide, by decide, "live-streams", rfl, by decide, by decide⟩
  · intro hcl
    exact absurd hcl.1 (by decide)

/-! ### Unload-by-distance exemption (C8) -/

/-- When exactly one year section contains a highlighted item,
`querySelector` resolves to that section. -/
theorem firstHighlightedSection_of_unique (secs : List YearSection) (i : Nat)
    (ys : YearSection) (hys : secs[i]? = some ys)
    (hh : (ys.items.any fun it => it.highlighted) = true)
    (ho : ∀ j, j ≠ i → ∀ zs, secs[j]? = some zs →
      (zs.items.any fun it => it.highlighted) = false) :
    firstHighlightedSection secs = some i := by
  induction secs generalizing i with
  | nil => simp at hys
  | cons a l ih =>
    cases i with
    | zero =>
      rw [List.getElem?_cons_zero] at hys
      injection hys with hys
      subst hys
      unfold firstHighlightedSection
      rw [List.findIdx?_cons, if_pos hh]
    | succ n =>
      have ha : (a.items.any fun it => it.highlighted) = false :=
        ho 0 (by omega) a (by rw [List.getElem?_cons_zero])
      rw [List.getElem?_cons_succ] at hys
      have ho2 : ∀ j, j ≠ n → ∀ zs, l[j]? = some zs →
          (zs.items.any fun it => it.highlighted) = false := by
        intro j hj zs hz
        refine ho (j + 1) (by omega) zs ?_
        rw [List.getElem?_cons_succ]
        exact hz
      have ihl := ih n hys ho2
      unfold firstHighlightedSection at ihl ⊢
      rw [List.findIdx?_cons, if_neg (by simp [ha])]
      rw [show (1 : Nat) = 0 + 1 from rfl, List.findIdx?_succ, ihl]
      rfl

/-- One unload-observer entry never tears down the section owning the unique
highlighted item, and preserves uniqueness of the highlight. -/
theorem unloadObserverEntry_preserves (secs : List YearSection)
    (e : Nat × Bool) (i : Nat) (ys : YearSection)
    (hys : secs[i]? = some ys)
    (hh : (ys.items.any fun it => it.highlighted) = true)
    (ho : ∀ j, j ≠ i → ∀ zs, secs[j]? = some zs →
      (zs.items.any fun it => it.highlighted) = false) :
    (unloadObserverEntry secs e)[i]? = some ys ∧
    (∀ j, j ≠ i → ∀ zs, (unloadObserverEntry secs e)[j]? = some zs →
      (zs.items.any fun it => it.highlighted) = false) := by
  unfold unloadObserverEntry
  by_cases h2 : e.2
  · rw [if_pos h2]
    exact ⟨hys, ho⟩
  · rw [if_neg h2]
    cases htgt : secs[e.1]? with
    | none => exact ⟨hys, ho⟩
    | some zs =>
      dsimp only
      by_cases hld : zs.loaded
      · rw [if_pos hld]
        by_cases hfi : firstHighlightedSection secs = some e.1
        · rw [if_pos hfi]
          exact ⟨hys, ho⟩
        · rw [if_neg hfi]
          have hne : e.1 ≠ i := by
            intro hcontra
            exact hfi
              (hcontra ▸ firstHighlightedSection_of_unique secs i ys hys hh ho)
          constructor
          · rw [List.getElem?_set_ne hne]
            exact hys
          · intro j hj zs2 hz
            rw [List.getElem?_set] at hz
            by_cases hje : e.1 = j
            · rw [if_pos hje] at hz
              by_cases hlt : e.1 < secs.length
              · rw [if_pos hlt] at hz
                injection hz with hz
                rw [← hz]
                rfl
              · rw [if_neg hlt] at hz
                exact Option.noConfusion hz
            · rw [if_neg hje] at hz
              exact ho j hj zs2 hz
      · rw [if_neg hld]
        exact ⟨hys, ho⟩

/-- C8: Unload-by-distance exemption.  Whatever entries the distance-based
unload observer processes, the year section that owns the currently
highlighted / deep-linked archive item (the unique section containing a
highlighted item) survives every firing completely unchanged, even when it
is reported far outside the viewport. -/
theorem unload_observer_never_tears_down_highlighted
    (secs : List YearSection) (es : List (Nat × Bool)) (i : Nat)
    (ys : YearSection) (hys : secs[i]? = some ys)
    (hh : (ys.items.any fun it => it.highlighted) = true)
    (ho : ∀ j, j ≠ i → ∀ zs, secs[j]? = some zs →
      (zs.items.any fun it => it.highlighted) = false) :
    (unloadObserverFire secs es)[i]? = some ys := by
  induction es generalizing secs with
  | nil => exact hys
  | cons e rest ih =>
    have hstep := unloadObserverEntry_preserves secs e i ys hys hh ho
    exact ih (unloadObserverEntry secs e) hstep.1 hstep.2

/-- Witness for C8: the highlighted item lives in the second year group;
after entries report both groups as far out of view, the first group is
(torn down or not) but the highlighted group is untouched. -/
theorem unload_observer_never_tears_down_highlighted_witness :
    (unloadObserverFire
        [{ loaded := true, items := [{ highlighted := false, embedLoaded := true }] },
          { loaded := true, items := [{ highlighted := true, embedLoaded := true }] }]
        [(1, false), (0, false)])[1]?
      = some { loaded := true, items := [{ highlighted := true, embedLoaded := true }] } := by
  refine unload_observer_never_tears_down_highlighted _ _ 1 _ ?_ ?_ ?_
  · rfl
  · rfl
  intro j hj zs hz
  rcases j with _ | _ | n
  · rw [List.getElem?_cons_zero] at hz
    injection hz with hz
    rw [← hz]
    rfl
  · exact absurd rfl hj
  · rw [List.getElem?_cons_succ, List.getElem?_cons_succ] at hz
    simp at hz

/-! ### Configuration loader caching (C5) -/

/-- A document accepted by the validator is JS-truthy (needed so the success
cache short-circuits every later call). -/
theorem fetchAndValidate_ok_truthy (o : FetchOutcome) (v : JsValue)
    (h : fetchAndValidate o = .ok v) : jsTruthy v = true := by
  cases o with
  | netErr m => exact Except.noConfusion h
  | resp ok status stext body =>
    simp only [fetchAndValidate] at h
    by_cases hok : ok = false
    · rw [if_pos hok] at h
      exact Except.noConfusion h
    · rw [if_neg hok] at h
      cases body with
      | error m => exact Except.noConfusion h
      | ok data =>
        dsimp only at h
        by_cases h1 : jsTruthy data = false ∨ typeofObject data = false
        · rw [if_pos h1] at h
          exact Except.noConfusion h
        · rw [if_neg h1] at h
          by_cases h2 : isArray (getField data "audio") = false
          · rw [if_pos h2] at h
            exact Except.noConfusion h
          · rw [if_neg h2] at h
            by_cases h3 : isArray (getField data "video") = false
            · rw [if_pos h3] at h
              exact Except.noConfusion h
            · rw [if_neg h3] at h
              injection h with h
              subst h
              cases hb : jsTruthy data with
              | false => exact absurd (Or.inl hb) h1
              | true => rfl

/-- C5: Configuration loader caching.  The first call (empty caches)
fetches and validates: on success the document is cached (and is truthy, so
the cache takes effect) and on failure the error is cached.  With a truthy
cached document every call returns it unchanged whatever the fetch outcome
would be (no re-fetch); with a cached error and no cached document every
call re-throws that same error without consulting the fetch outcome; and
`resetConfig` clears both caches. -/
theorem loadConfig_caching :
    (∀ (st : ConfigState) (d : JsValue), st.configData = some d →
        jsTruthy d = true → ∀ o : FetchOutcome, loadConfig st o = (.ok d, st)) ∧
    (∀ (st : ConfigState) (e : String), st.configData = none →
        st.configError = some e → ∀ o : FetchOutcome,
        loadConfig st o = (.error e, st)) ∧
    (∀ (o : FetchOutcome) (v : JsValue), fetchAndValidate o = .ok v →
        loadConfig initialConfigState o
            = (.ok v, { configData := some v, configError := none }) ∧
          jsTruthy v = true) ∧
    (∀ (o : FetchOutcome) (e : String), fetchAndValidate o = .error e →
        loadConfig initialConfigState o
          = (.error e, { configData := none, configError := some e })) ∧
    (∀ st : ConfigState, resetConfig st = initialConfigState) := by
  refine ⟨?_, ?_, ?_, ?_, ?_⟩
  · intro st d hd ht o
    rw [loadConfig, hd]
    simp [ht]
  · intro st e hd he o
    rw [loadConfig, hd, loadConfigFetch, he]
  · intro o v h
    refine ⟨?_, fetchAndValidate_ok_truthy o v h⟩
    rw [loadConfig, initialConfigState]
    simp only [loadConfigFetch, h]
  · intro o e h
    rw [loadConfig, initialConfigState]
    simp only [loadConfigFetch, h]
  · intro st
    rfl

/-- Witness for C5: a cached document is returned unchanged with no fetch, a
cached error is re-thrown with no fetch, and `resetConfig` clears both
caches, at concrete states and a concrete (failing) fetch outcome that is
demonstrably ignored. -/
theorem loadConfig_caching_witness :
    loadConfig
        { configData := some (JsValue.vobj
            [("audio", JsValue.varr []), ("video", JsValue.varr [])])
          configError := none }
        (FetchOutcome.netErr "network down")
      = (Except.ok (JsValue.vobj
            [("audio", JsValue.varr []), ("video", JsValue.varr [])]),
          { configData := some (JsValue.vobj
              [("audio", JsValue.varr []), ("video", JsValue.varr [])])
            configError := none }) ∧
    loadConfig { configData := none, configError := some "boom" }
        (FetchOutcome.netErr "network down")
      = (Except.error "boom",
          { configData := none, configError := some "boom" }) ∧
    resetConfig { configData := none, configError := some "boom" }
      = initialConfigState := by
  refine ⟨?_, ?_, ?_⟩
  · have hd : jsTruthy (JsValue.vobj
        [("audio", JsValue.varr []), ("video", JsValue.varr [])]) = true := rfl
    exact loadConfig_caching.1 _ _ rfl hd _
  · exact loadConfig_caching.2.1 _ _ rfl rfl _
  · exact loadConfig_caching.2.2.2.2 _

/-! ### Substring-counting lemmas for the language-parameter claim -/

theorem countSubstr_cons (p : List Char) (c : Char) (l : List Char) :
    countSubstr p (c :: l)
      = countSubstr p l + (if p.isPrefixOf (c :: l) = true then 1 else 0) := by
  simp [countSubstr, List.tails_cons, List.countP_cons]

theorem countSubstr_eq_zero_of_not_contains (p u : List Char)
    (h : containsSeq p u = false) : countSubstr p u = 0 := by
  rw [countSubstr, List.countP_eq_zero]
  intro t ht
  exact (List.any_eq_false.mp h) t ht

/-- No occurrence of `'lang='` can straddle the junction between a URL and
the appended `'&lang=en'` / `'?lang=en'` tail, because the separator
character is not a character of the pattern. -/
theorem langPat_not_prefixOf_append (s rest : List Char) (sep : Char)
    (hsep : sep = '&' ∨ sep = '?') (hne : s ≠ [])
    (hs : langPat.isPrefixOf s = false) :
    langPat.isPrefixOf (s ++ sep :: rest) = false := by
  cases hb : langPat.isPrefixOf (s ++ sep :: rest) with
  | false => rfl
  | true =>
    exfalso
    have hpre : langPat <+: s ++ sep :: rest := List.isPrefixOf_iff_prefix.mp hb
    rcases s with _ | ⟨a, _ | ⟨b, _ | ⟨c, _ | ⟨d, _ | ⟨e, tl⟩⟩⟩⟩⟩
    · exact hne rfl
    · obtain ⟨r, hr⟩ := hpre
      simp only [langPat, List.cons_append, List.nil_append] at hr
      injection hr with h1 hr
      injection hr with h2 hr
      rcases hsep with h | h <;> rw [h] at h2 <;> exact absurd h2 (by decide)
    · obtain ⟨r, hr⟩ := hpre
      simp only [langPat, List.cons_append, List.nil_append] at hr
      injection hr with h1 hr
      injection hr with h2 hr
      injection hr with h3 hr
      rcases hsep with h | h <;> rw [h] at h3 <;> exact absurd h3 (by decide)
    · obtain ⟨r, hr⟩ := hpre
      simp only [langPat, List.cons_append, List.nil_append] at hr
      injection hr with h1 hr
      injection hr with h2 hr
      injection hr with h3 hr
      injection hr with h4 hr
      rcases hsep with h | h <;> rw [h] at h4 <;> exact absurd h4 (by decide)
    · obtain ⟨r, hr⟩ := hpre
      simp only [langPat, List.cons_append, List.nil_append] at hr
      injection hr with h1 hr
      injection hr with h2 hr
      injection hr with h3 hr
      injection hr with h4 hr
      injection hr with h5 hr
      rcases hsep with h | h <;> rw [h] at h5 <;> exact absurd h5 (by decide)
    · have hlen : langPat.length ≤ (a :: b :: c :: d :: e :: tl).length := by
        simp only [langPat, List.length_cons, List.length_nil]
        omega
      have hpre2 : langPat <+: a :: b :: c :: d :: e :: tl :=
        List.prefix_of_prefix_length_le hpre (List.prefix_append _ _) hlen
      have htrue := List.isPrefixOf_iff_prefix.mpr hpre2
      rw [htrue] at hs
      exact Bool.noConfusion hs

/-- Appending `sep :: rest` to a URL with no occurrence of `'lang='` leaves
exactly the occurrences contributed by `sep :: rest`. -/
theorem countSubstr_append_sep (u rest : List Char) (sep : Char)
    (hsep : sep = '&' ∨ sep = '?') (h0 : countSubstr langPat u = 0) :
    countSubstr langPat (u ++ sep :: rest) = countSubstr langPat (sep :: rest) := by
  induction u with
  | nil => rfl
  | cons c u ih =>
    rw [countSubstr_cons] at h0
    by_cases hc : langPat.isPrefixOf (c :: u) = true
    · rw [if_pos hc] at h0
      omega
    · rw [if_neg hc] at h0
      have h0u : countSubstr langPat u = 0 := by omega
      have hcf : langPat.isPrefixOf (c :: u) = false := by
        revert hc
        cases langPat.isPrefixOf (c :: u) <;> simp
      have hnostraddle := langPat_not_prefixOf_append (c :: u) rest sep hsep
        (by simp) hcf
      rw [List.cons_append, countSubstr_cons, ih h0u]
      simp only [← List.cons_append, hnostraddle]
      simp

/-- C6: VK language-parameter normalization.  A URL already containing the
language parameter `'lang='` is passed through `addVkLanguageParam`
unchanged, and a VK embed URL without it gains exactly one occurrence of the
language parameter, never duplicated. -/
theorem addVkLanguageParam_normalization (u : List Char) :
    (containsSeq langPat u = true → addVkLanguageParam u = u) ∧
    (isVkEmbedUrl u = true → containsSeq langPat u = false →
      countSubstr langPat (addVkLanguageParam u) = 1) := by
  constructor
  · intro hl
    simp [addVkLanguageParam, hl]
  · intro hv hl
    have hne : ¬(u.isEmpty = true) := by
      cases u with
      | nil => exact absurd hv (by decide)
      | cons a l => simp
    have h0 : countSubstr langPat u = 0 :=
      countSubstr_eq_zero_of_not_contains langPat u hl
    rw [addVkLanguageParam, if_neg hne, if_pos hv, if_neg (by simp [hl])]
    by_cases hq : u.contains '?' = true
    · simp only [if_pos hq]
      rw [countSubstr_append_sep u _ '&' (Or.inl rfl) h0]
      decide
    · simp only [if_neg hq]
      rw [countSubstr_append_sep u _ '?' (Or.inr rfl) h0]
      decide

/-- Witness for C6: a URL with the parameter is unchanged; the documented
example URL without it gains exactly one occurrence. -/
theorem addVkLanguageParam_normalization_witness :
    (addVkLanguageParam "https://vk.com/video_ext.php?oid=1&lang=en".toList
        = "https://vk.com/video_ext.php?oid=1&lang=en".toList) ∧
    countSubstr langPat
        (addVkLanguageParam "https://vk.com/video_ext.php?oid=123&id=456".toList)
      = 1 :=
  ⟨(addVkLanguageParam_normalization _).1 (by decide),
    (addVkLanguageParam_normalization _).2 (by decide) (by decide)⟩

/-- C10: Active-stream value invariant.  Starting from the module's initial
value `'kick'`, after any sequence of `switchStream` calls with arbitrary
string arguments, `getActiveStream` returns `'kick'` or `'twitch'`. -/
theorem getActiveStream_always_valid (d : StreamDom) (inputs : List String) :
    getActiveStream
        (inputs.foldl (fun st s => (switchStream st s).1) (initialStreamState d))
      = "kick" ∨
    getActiveStream
        (inputs.foldl (fun st s => (switchStream st s).1) (initialStreamState d))
      = "twitch" := by
  simp only [getActiveStream]
  suffices hgen : ∀ (l : List String) (st : StreamSt),
      st.activeStream = "kick" ∨ st.activeStream = "twitch" →
      (l.foldl (fun st s => (switchStream st s).1) st).activeStream = "kick" ∨
      (l.foldl (fun st s => (switchStream st s).1) st).activeStream = "twitch" by
    exact hgen inputs _ (Or.inl rfl)
  intro l
  induction l with
  | nil => intro st h; simpa using h
  | cons x xs ih =>
    intro st h
    exact ih _ (switchStream_preserves_range st x h)

end OrangeTerry
